import Mathlib

/-!
Shallow embedding of the DuckDB CLI driver (`src/ls/driver.ts`) and proofs of
the specification claims about it.  External platform facilities (filesystem,
subprocess spawning, JSON parsing, path handling of the host framework) are
modelled as oracle parameters; everything else is translated directly from the
TypeScript source.
-/

namespace DuckDBDriver

/-- Whitespace characters recognised by JavaScript `String.prototype.trim`
(restricted to the code points the driver can realistically see). -/
def isJsSpace (c : Char) : Bool :=
  c = ' ' || c = '\t' || c = '\n' || c = '\r' || c = '\x0b' || c = '\x0c' ||
  c = ' ' || c = '﻿'

/-- Character-list version of JavaScript `trim`. -/
def trimChars (l : List Char) : List Char :=
  ((l.dropWhile isJsSpace).reverse.dropWhile isJsSpace).reverse

/-- JavaScript `String.prototype.trim`. -/
def jsTrim (s : String) : String := ⟨trimChars s.data⟩

/-- Character-list version of `String.toUpperCase` (ASCII, as the driver's
labels are). -/
def jsToUpper (s : String) : String := ⟨s.data.map Char.toUpper⟩

/-- Character-list version of `String.toLowerCase`. -/
def jsToLower (s : String) : String := ⟨s.data.map Char.toLower⟩

/-- The character-by-character loop of `splitSqlStatements`
(driver.ts lines 45-134), translated arm by arm.  The loop's local variables
(`statements`, `current` and the four mode flags, in declaration order) are
the extra arguments; the two-character lookahead (`next = sqlText[i + 1]`
together with `i++`) becomes a pattern on the head of the remaining list. -/
def splitAux : List Char → List String → String → Bool → Bool → Bool → Bool → List String
  | [], statements, current, _, _, _, _ =>
    let tail := jsTrim current
    if tail = "" then statements else statements ++ [tail]
  | ch :: rest, statements, current, inSingleQuote, inDoubleQuote, inLineComment, inBlockComment =>
    if inLineComment then
      splitAux rest statements (current.push ch) inSingleQuote inDoubleQuote
        (ch != '\n') inBlockComment
    else if inBlockComment then
      match ch, rest with
      | '*', '/' :: rest2 =>
        splitAux rest2 statements ((current.push '*').push '/') inSingleQuote
          inDoubleQuote inLineComment false
      | c, r =>
        splitAux r statements (current.push c) inSingleQuote inDoubleQuote
          inLineComment inBlockComment
    else if inSingleQuote then
      match ch, rest with
      | '\'', '\'' :: rest2 =>
        splitAux rest2 statements ((current.push '\'').push '\'') inSingleQuote
          inDoubleQuote inLineComment inBlockComment
      | c, r =>
        splitAux r statements (current.push c) (c != '\'') inDoubleQuote
          inLineComment inBlockComment
    else if inDoubleQuote then
      match ch, rest with
      | '"', '"' :: rest2 =>
        splitAux rest2 statements ((current.push '"').push '"') inSingleQuote
          inDoubleQuote inLineComment inBlockComment
      | c, r =>
        splitAux r statements (current.push c) inSingleQuote (c != '"')
          inLineComment inBlockComment
    else
      match ch, rest with
      | '-', '-' :: rest2 =>
        splitAux rest2 statements ((current.push '-').push '-') inSingleQuote
          inDoubleQuote true inBlockComment
      | '/', '*' :: rest2 =>
        splitAux rest2 statements ((current.push '/').push '*') inSingleQuote
          inDoubleQuote inLineComment true
      | '\'', r =>
        splitAux r statements (current.push '\'') true inDoubleQuote
          inLineComment inBlockComment
      | '"', r =>
        splitAux r statements (current.push '"') inSingleQuote true
          inLineComment inBlockComment
      | ';', r =>
        let trimmed := jsTrim current
        splitAux r (if trimmed = "" then statements else statements ++ [trimmed])
          "" inSingleQuote inDoubleQuote inLineComment inBlockComment
      | c, r =>
        splitAux r statements (current.push c) inSingleQuote inDoubleQuote
          inLineComment inBlockComment

/-- `splitSqlStatements` (driver.ts lines 45-134). -/
def splitSqlStatements (sqlText : String) : List String :=
  splitAux sqlText.data [] "" false false false false

/-- A JavaScript regex word character (`\w`, i.e. `[A-Za-z0-9_]`). -/
def isWordCharJS (c : Char) : Bool :=
  ('a' ≤ c && c ≤ 'z') || ('A' ≤ c && c ≤ 'Z') || ('0' ≤ c && c ≤ '9') || c = '_'

/-- Case-insensitive keyword match at the start of a character list followed
by a word boundary, embedding the regex `^(kw)\b/i` for a single keyword. -/
def matchKeywordCI : List Char → List Char → Bool
  | [], [] => true
  | [], c :: _ => !(isWordCharJS c)
  | _ :: _, [] => false
  | k :: ks, c :: cs => (c.toLower = k) && matchKeywordCI ks cs

/-- The keyword alternatives of the `isResultSetQuery` regex
(driver.ts lines 304-306). -/
def RESULT_SET_KEYWORDS : List String :=
  ["select", "with", "pragma", "show", "describe", "call", "explain", "summarize"]

/-- `isResultSetQuery` (driver.ts lines 304-306): tests
`/^(select|with|pragma|show|describe|call|explain|summarize)\b/i` against the
trimmed statement. -/
def isResultSetQuery (query : String) : Bool :=
  RESULT_SET_KEYWORDS.any (fun kw => matchKeywordCI kw.data (jsTrim query).data)

/-- A row of the parsed JSON output: an object as an ordered list of
key/value pairs (values kept as rendered strings; only the keys matter to
the driver). -/
def Row := List (String × String)
deriving DecidableEq, Repr

/-- `NSDatabase.IResult` as populated by `query` (driver.ts lines 348-368):
ids are abstract numbers, messages are their user-facing strings. -/
structure IResult where
  requestId : Nat
  resultId : Nat
  connId : Nat
  cols : List String
  messages : List String
  query : String
  results : List Row
  error : Bool
  rawError : String
deriving DecidableEq, Repr

/-- The success `IResult` pushed by `query` (driver.ts lines 344-356):
columns are the keys of the first row, and a zero-row non-result-set
statement gets the single informational message. -/
def mkSuccessResult (connId requestId resultId : Nat) (q : String)
    (results : List Row) : IResult :=
  { requestId, resultId, connId,
    cols := match results with | [] => [] | row :: _ => row.map Prod.fst,
    messages :=
      if results.length = 0 && !(isResultSetQuery q) then
        ["Statement executed successfully."]
      else [],
    query := q, results, error := false, rawError := "" }

/-- The error `IResult` pushed by `query` (driver.ts lines 358-368). -/
def mkErrorResult (connId requestId resultId : Nat) (q e : String) : IResult :=
  { requestId, resultId, connId, cols := [], messages := [e], query := q,
    results := [], error := true, rawError := e }

/-- The statement loop of `query` (driver.ts lines 341-371).  `exec` is the
oracle for `runSingleQuery` (CLI spawn plus JSON parse): `Except.error`
covers spawn failure, non-zero exit and unparsable output.  Returns the
aggregated results together with the trace of statements actually handed to
the CLI; the `break` in the catch branch stops the loop. -/
def queryGo (exec : String → Except String (List Row)) (connId requestId : Nat) :
    List String → Nat → List IResult × List String
  | [], _ => ([], [])
  | q :: rest, idx =>
    match exec q with
    | .ok results =>
      let next := queryGo exec connId requestId rest (idx + 1)
      (mkSuccessResult connId requestId idx q results :: next.1, q :: next.2)
    | .error e => ([mkErrorResult connId requestId idx q e], [q])

/-- `query` (driver.ts lines 336-373): split the script, drop empty strings
(`filter(Boolean)`), then run the statements sequentially. -/
def queryDriver (exec : String → Except String (List Row))
    (connId requestId : Nat) (script : String) : List IResult × List String :=
  queryGo exec connId requestId
    ((splitSqlStatements script).filter (fun s => s != "")) 0

/-- The `readOnly` credential value: JavaScript allows a boolean, a string,
or nothing (driver.ts lines 256-263). -/
inductive ReadOnlyValue where
  | bool (v : Bool)
  | str (v : String)
  | undef
deriving DecidableEq, Repr

/-- The connection credentials consumed by the driver (empty string stands
for an absent/falsy field, as in the `|| ''` fallbacks of the source). -/
structure Credentials where
  database : String
  duckdbCliPath : String
  duckdbPath : String
  readOnly : ReadOnlyValue
deriving DecidableEq, Repr

/-- `isReadOnlyEnabled` (driver.ts lines 256-263). -/
def isReadOnlyEnabled (readOnly : ReadOnlyValue) : Bool :=
  match readOnly with
  | .bool v => v
  | .str v => ["1", "true", "yes", "enabled", "on"].contains (jsToLower (jsTrim v))
  | .undef => false

/-- `isPathLike` (driver.ts line 170): `/[\\/]/.test(c) || /^[a-zA-Z]:/.test(c)`. -/
def isPathLike (candidate : String) : Bool :=
  candidate.data.any (fun c => c = '\\' || c = '/') ||
  (match candidate.data with
   | a :: b :: _ => (('a' ≤ a && a ≤ 'z') || ('A' ≤ a && a ≤ 'Z')) && b = ':'
   | _ => false)

/-- `getConfiguredExecutablePath` (driver.ts lines 172-179).  `toAbs` is the
oracle for the host framework's `toAbsolutePath`. -/
def getConfiguredExecutablePath (toAbs : String → String)
    (creds : Credentials) : String :=
  let configuredPath :=
    jsTrim (if creds.duckdbCliPath ≠ "" then creds.duckdbCliPath
            else creds.duckdbPath)
  if configuredPath = "" then ""
  else if isPathLike configuredPath then toAbs configuredPath
  else configuredPath

/-- `getEnvironmentExecutablePath` (driver.ts lines 181-188); `envVal` is the
value of the `DUCKDB_CLI_PATH` environment variable (empty if unset). -/
def getEnvironmentExecutablePath (toAbs : String → String) (envVal : String) : String :=
  let envPath := jsTrim envVal
  if envPath = "" then ""
  else if isPathLike envPath then toAbs envPath
  else envPath

/-- Append an element unless already present: one `Set.add` step of a
JavaScript `Set`, which keeps insertion order. -/
def setAdd (l : List String) (x : String) : List String :=
  if l.contains x then l else l ++ [x]

/-- The `AUTO_EXECUTABLE_CANDIDATES` table (driver.ts lines 13-32). -/
def AUTO_EXECUTABLE_CANDIDATES (platform : String) : Option (List String) :=
  if platform = "win32" then
    some ["duckdb.exe", "M:\\Programs\\duckdb\\duckdb.exe",
          "C:\\Program Files\\DuckDB\\duckdb.exe",
          "C:\\Program Files (x86)\\DuckDB\\duckdb.exe"]
  else if platform = "darwin" then
    some ["duckdb", "/opt/homebrew/bin/duckdb", "/usr/local/bin/duckdb",
          "/usr/bin/duckdb"]
  else if platform = "linux" then
    some ["duckdb", "/usr/local/bin/duckdb", "/usr/bin/duckdb",
          "/snap/bin/duckdb"]
  else none

/-- `getAutoExecutableCandidates` (driver.ts lines 190-195): dedupe the
platform candidates through a `Set` and add the generic command name. -/
def getAutoExecutableCandidates (platform : String) : List String :=
  let platformCandidates := (AUTO_EXECUTABLE_CANDIDATES platform).getD ["duckdb"]
  let uniqueCandidates := platformCandidates.foldl setAdd []
  setAdd uniqueCandidates (if platform = "win32" then "duckdb.exe" else "duckdb")

/-- The error object thrown by a failed `execFile` call: captured stderr (empty
when not a string) and the JavaScript error message. -/
structure ExecError where
  stderr : String
  message : String
deriving DecidableEq, Repr

/-- `validateExecutablePath` (driver.ts lines 197-210).  `existsSync` and
`execFileVersion` are the filesystem / subprocess oracles (the latter models
spawning `executablePath --version`). -/
def validateExecutablePath (existsSync : String → Bool)
    (execFileVersion : String → Except ExecError Unit)
    (executablePath : String) : Except String Unit :=
  if isPathLike executablePath && !existsSync executablePath then
    .error ("DuckDB executable not found at \"" ++ executablePath ++ "\".")
  else
    match execFileVersion executablePath with
    | .ok _ => .ok ()
    | .error err =>
      let stderr := jsTrim err.stderr
      let message :=
        if stderr ≠ "" then stderr
        else if err.message ≠ "" then err.message
        else "Failed to execute DuckDB CLI."
      .error ("DuckDB CLI validation failed. " ++ message)

/-- The auto-discovery loop of `resolveExecutablePath`
(driver.ts lines 239-253), threading the accumulated `attempts` diagnostics
and the trace of candidates handed to `validateExecutablePath`. -/
def tryCandidates (validate : String → Except String Unit) :
    List String → List String → List String → Except String String × List String
  | [], attempts, trace =>
    let attemptedMessage :=
      if attempts ≠ [] then
        " Attempted: " ++ String.intercalate " | " (attempts.take 5)
      else ""
    (.error ("DuckDB CLI executable was not found. Set \"duckdbCliPath\" in the connection settings or add \"duckdb\" to your PATH."
              ++ attemptedMessage), trace)
  | candidate :: restCandidates, attempts, trace =>
    match validate candidate with
    | .ok _ => (.ok candidate, trace ++ [candidate])
    | .error msg =>
      tryCandidates validate restCandidates
        (attempts ++ [candidate ++ " -> " ++ msg]) (trace ++ [candidate])

/-- `resolveExecutablePath` (driver.ts lines 212-254).  The second component
is the trace of every path handed to `validateExecutablePath`, in order. -/
def resolveExecutablePath (toAbs : String → String)
    (existsSync : String → Bool)
    (execFileVersion : String → Except ExecError Unit)
    (creds : Credentials) (envVal : String) (platform : String) :
    Except String String × List String :=
  let validate := validateExecutablePath existsSync execFileVersion
  let configuredPath := getConfiguredExecutablePath toAbs creds
  if configuredPath ≠ "" then
    match validate configuredPath with
    | .ok _ => (.ok configuredPath, [configuredPath])
    | .error msg =>
      (.error ("Invalid \"duckdbCliPath\" / \"duckdbPath\": \"" ++ configuredPath
                ++ "\". " ++ msg), [configuredPath])
  else
    let environmentPath := getEnvironmentExecutablePath toAbs envVal
    if environmentPath ≠ "" then
      match validate environmentPath with
      | .ok _ => (.ok environmentPath, [environmentPath])
      | .error msg =>
        (.error ("Invalid environment variable DUCKDB_CLI_PATH: \"" ++ environmentPath
                  ++ "\". " ++ msg), [environmentPath])
    else
      tryCandidates validate (getAutoExecutableCandidates platform) [] []

/-- `TDuckDBConnection` (driver.ts lines 136-140). -/
structure TDuckDBConnection where
  databasePath : String
  executablePath : String
  readOnly : Bool
deriving DecidableEq, Repr

/-- `createDirIfNotExists` (driver.ts lines 265-274); `mkdirSync` is assumed
not to throw, so only the read-only existence check can fail. -/
def createDirIfNotExists (existsSync : String → Bool)
    (database : String) (readOnly : Bool) : Except String Unit :=
  if jsToLower database = ":memory:" then .ok ()
  else if readOnly then
    if !existsSync database then
      .error ("Database file not found for read-only mode: \"" ++ database ++ "\"")
    else .ok ()
  else .ok ()

/-- `open` (driver.ts lines 276-296).  The second component is the trace of
paths handed to `validateExecutablePath` during executable resolution (empty
when an existing connection is reused): the source calls
`resolveExecutablePath` before the read-only / in-memory check. -/
def openDriver (toAbs : String → String)
    (existsSync : String → Bool)
    (execFileVersion : String → Except ExecError Unit)
    (creds : Credentials) (envVal : String) (platform : String)
    (connection : Option TDuckDBConnection) :
    Except String TDuckDBConnection × List String :=
  match connection with
  | some c => (.ok c, [])
  | none =>
    let resolved := resolveExecutablePath toAbs existsSync execFileVersion creds envVal platform
    match resolved.1 with
    | .error e => (.error e, resolved.2)
    | .ok executablePath =>
      let databasePath :=
        toAbs (if creds.database = "" then ":memory:" else creds.database)
      let readOnly := isReadOnlyEnabled creds.readOnly
      if readOnly && jsToLower databasePath = ":memory:" then
        (.error "Read-only mode is not supported with \":memory:\" database.",
         resolved.2)
      else
        match createDirIfNotExists existsSync databasePath readOnly with
        | .error e => (.error e, resolved.2)
        | .ok _ => (.ok { databasePath, executablePath, readOnly }, resolved.2)

/-- `NSDatabase.IStaticCompletion` as built by the driver: the `documentation`
field keeps only the markdown `value` (the `kind` is the constant
`'markdown'`). -/
structure IStaticCompletion where
  label : String
  detail : String
  filterText : String
  sortText : String
  documentation : String
deriving DecidableEq, Repr

/-- A completion index: a JavaScript object keyed by normalized label,
modelled as an association list in insertion order. -/
def Completions := List (String × IStaticCompletion)

/-- Keys of an association list. -/
def keysOf {α : Type} (m : List (String × α)) : List String := m.map Prod.fst

/-- JavaScript object / `Map` assignment: overwrite pairs with the same key
in place, or append a new pair. -/
def objSet {α : Type} (m : List (String × α)) (key : String) (val : α) :
    List (String × α) :=
  if (keysOf m).contains key then
    m.map (fun kv => if kv.1 = key then (key, val) else kv)
  else m ++ [(key, val)]

/-- `PRIORITIZED_SQL_WORDS` (driver.ts line 33). -/
def PRIORITIZED_SQL_WORDS : List String := ["SELECT", "CREATE", "UPDATE", "DELETE"]

/-- The sort-priority string a keyword entry receives
(driver.ts line 478): prioritized words get `2:`, ordinary keywords `4:`. -/
def keywordSortText (label : String) : String :=
  (if PRIORITIZED_SQL_WORDS.contains label then "2:" else "4:") ++ label

/-- The sort-priority string a newly created function entry receives
(driver.ts line 567). -/
def functionSortText (label : String) : String := "3:" ++ label

/-- `normalizeCompletionLabel` (driver.ts lines 419-424): trim, uppercase,
and require the identifier shape `^[A-Z_][A-Z0-9_]*$`. -/
def normalizeCompletionLabel (value : String) : Option String :=
  let label := jsToUpper (jsTrim value)
  if label = "" then none
  else
    match label.data with
    | [] => none
    | c :: cs =>
      if (('A' ≤ c && c ≤ 'Z') || c = '_') &&
         cs.all (fun d => ('A' ≤ d && d ≤ 'Z') || ('0' ≤ d && d ≤ '9') || d = '_') then
        some label
      else none

/-- A keyword row as consumed by `addKeywordCompletions` (empty string stands
for an absent field). -/
structure KeywordRow where
  label : String
  category : String
deriving DecidableEq, Repr

/-- `addKeywordCompletions` (driver.ts lines 468-485). -/
def addKeywordCompletions (items : List KeywordRow) (completions : Completions) :
    Completions :=
  items.foldl
    (fun comps item =>
      match normalizeCompletionLabel item.label with
      | none => comps
      | some label =>
        let category :=
          jsToUpper (jsTrim (if item.category ≠ "" then item.category else "KEYWORD"))
        objSet comps label
          { label, detail := label, filterText := label,
            sortText := keywordSortText label,
            documentation :=
              "```yaml\nWORD: " ++ label ++ "\nTYPE: " ++ category ++ "\n```" })
    completions

/-- A dynamic JavaScript value as it can appear in the loosely typed
`parameters` / `parameterTypes` / `tags` columns of a function row. -/
inductive JsVal where
  | undef
  | str (s : String)
  | arr (items : List JsVal)
  | obj (fields : List (String × JsVal))

mutual

/-- JavaScript template-literal stringification `${v ?? ''}` of a `JsVal`
(arrays join their stringified items with commas, plain objects print as
`[object Object]`). -/
def jsToString : JsVal → String
  | .undef => ""
  | .str s => s
  | .arr items => jsToStringList items
  | .obj _ => "[object Object]"

/-- `Array.prototype.join(',')` over stringified items. -/
def jsToStringList : List JsVal → String
  | [] => ""
  | [v] => jsToString v
  | v :: vs => jsToString v ++ "," ++ jsToStringList vs

end

/-- JavaScript truthiness test restricted to the values a `JsVal` can take
(`undefined` and the empty string are falsy). -/
def jsFalsy : JsVal → Bool
  | .undef => true
  | .str s => s = ""
  | _ => false

/-- Helper for `String.prototype.split(',')`: cut a character list at every
comma (the accumulator holds the current segment reversed). -/
def splitCommaAux : List Char → List Char → List (List Char)
  | [], acc => [acc.reverse]
  | c :: rest, acc =>
    if c = ',' then acc.reverse :: splitCommaAux rest []
    else splitCommaAux rest (c :: acc)

/-- JavaScript `String.prototype.split(',')`. -/
def jsSplitComma (s : String) : List String :=
  (splitCommaAux s.data []).map (fun l => ⟨l⟩)

/-- `item.trim().replace(/^['"]|['"]$/g, '')` from `toStringArray`
(driver.ts line 438): strip one leading and one trailing quote character. -/
def stripQuoteEnds (s : String) : String :=
  let l := s.data
  let l1 := match l with
            | c :: restChars => if c = '\'' || c = '"' then restChars else l
            | [] => []
  match l1.getLast? with
  | some c => if c = '\'' || c = '"' then ⟨l1.dropLast⟩ else ⟨l1⟩
  | none => ⟨l1⟩

/-- `toStringArray` (driver.ts lines 426-444). -/
def toStringArray (value : JsVal) : List String :=
  match value with
  | .arr items =>
    ((items.map (fun item => jsTrim (jsToString item))).filter (fun s => s ≠ ""))
  | .str s =>
    let trimmed := jsTrim s
    if trimmed = "" then []
    else if trimmed.data.head? = some '[' ∧ trimmed.data.getLast? = some ']' then
      let inner := jsTrim ⟨(trimmed.data.drop 1).dropLast⟩
      if inner = "" then []
      else ((jsSplitComma inner).map (fun item => stripQuoteEnds (jsTrim item))).filter
             (fun s => s ≠ "")
    else [trimmed]
  | _ => []

/-- `toTagArray` (driver.ts lines 446-466).  `parse` is the `JSON.parse`
oracle (`none` models a parse exception); the fuel bounds the
parse-and-recurse depth on strings, which in JavaScript terminates because
every successful parse output is strictly smaller than its input. -/
def toTagArray (parse : String → Option JsVal) : Nat → JsVal → List String
  | _, .undef => []
  | fuel, .str s =>
    if s = "" then []
    else
      let trimmed := jsTrim s
      if trimmed = "" then []
      else
        match fuel, parse trimmed with
        | f + 1, some v => toTagArray parse f v
        | _, _ => [trimmed]
  | _, .obj fields =>
    ((fields.map (fun kv =>
        let stringVal := jsTrim (jsToString kv.2)
        if stringVal ≠ "" then kv.1 ++ "=" ++ stringVal else kv.1)).filter
      (fun s => s ≠ ""))
  | _, .arr items =>
    ((((List.range items.length).zip items).map (fun kv =>
        let stringVal := jsTrim (jsToString kv.2)
        if stringVal ≠ "" then toString kv.1 ++ "=" ++ stringVal
        else toString kv.1)).filter (fun s => s ≠ ""))

/-- Fuel that dominates the JavaScript parse-and-recurse depth of
`toTagArray` on a given value. -/
def tagFuel : JsVal → Nat
  | .str s => s.length + 1
  | _ => 1

/-- `TDynamicFunctionRow` (driver.ts lines 142-155); empty strings stand for
absent string fields, `JsVal.undef` for absent dynamic fields. -/
structure TDynamicFunctionRow where
  label : String
  name : String
  category : String
  functionType : String
  type : String
  description : String
  returnType : String
  return_type : String
  parameters : JsVal
  parameterTypes : JsVal
  parameter_types : JsVal
  tags : JsVal

/-- `TFunctionCompletionMeta` (driver.ts lines 157-163); the `Set` fields
become insertion-ordered duplicate-free lists. -/
structure TFunctionCompletionMeta where
  categories : List String
  returnTypes : List String
  signatures : List String
  tags : List String
  description : String
deriving DecidableEq, Repr

/-- The empty `TFunctionCompletionMeta` created on first sight of a label
(driver.ts lines 513-519). -/
def emptyFunctionMeta : TFunctionCompletionMeta := ⟨[], [], [], [], ""⟩

/-- The label of a function row: `item.label || item.name` normalized
(driver.ts line 491). -/
def rowLabel (item : TDynamicFunctionRow) : Option String :=
  normalizeCompletionLabel (if item.label ≠ "" then item.label else item.name)

/-- The category of a function row (driver.ts line 494). -/
def rowCategory (item : TDynamicFunctionRow) : String :=
  let c := jsToUpper (jsTrim (if item.category ≠ "" then item.category
                    else if item.functionType ≠ "" then item.functionType
                    else if item.type ≠ "" then item.type
                    else "FUNCTION"))
  if c ≠ "" then c else "FUNCTION"

/-- The return type of a function row (driver.ts line 495). -/
def rowReturnType (item : TDynamicFunctionRow) : String :=
  jsTrim (if item.returnType ≠ "" then item.returnType else item.return_type)

/-- The rendered parameter signature fragments of a function row
(driver.ts lines 501-510). -/
def buildSignatureParams (parameterNames parameterTypes : List String) : List String :=
  (((List.range (max parameterNames.length parameterTypes.length)).map (fun index =>
      let parameterName := parameterNames.getD index ""
      let parameterType := parameterTypes.getD index ""
      if parameterName ≠ "" ∧ parameterType ≠ "" ∧ parameterName ≠ parameterType then
        parameterName ++ ": " ++ parameterType
      else if parameterName ≠ "" then parameterName
      else parameterType)).filter (fun s => s ≠ ""))

/-- The signature fragments of a function row (driver.ts lines 498-510). -/
def rowSignatureParams (item : TDynamicFunctionRow) : List String :=
  buildSignatureParams (toStringArray item.parameters)
    (toStringArray (if !(jsFalsy item.parameterTypes) then item.parameterTypes
                    else item.parameter_types))

/-- The rendered signature of a function row (driver.ts line 511). -/
def rowSignature (label : String) (item : TDynamicFunctionRow) : String :=
  label ++ "(" ++ String.intercalate ", " (rowSignatureParams item) ++ ")"

/-- The merged metadata after one source row is folded into the metadata it
collides with: the `Set.add` / first-description-wins mutations of
driver.ts lines 520-527. -/
def rowNewMeta (parse : String → Option JsVal) (item : TDynamicFunctionRow)
    (currentMeta : TFunctionCompletionMeta) (label : String) :
    TFunctionCompletionMeta :=
  { categories := setAdd currentMeta.categories (rowCategory item),
    returnTypes :=
      if rowReturnType item ≠ "" then
        setAdd currentMeta.returnTypes (rowReturnType item)
      else currentMeta.returnTypes,
    signatures :=
      if rowSignatureParams item ≠ [] then
        setAdd currentMeta.signatures (rowSignature label item)
      else currentMeta.signatures,
    tags := (toTagArray parse (tagFuel item.tags) item.tags).foldl setAdd
      currentMeta.tags,
    description :=
      if currentMeta.description = "" ∧ jsTrim item.description ≠ "" then
        jsTrim item.description
      else currentMeta.description }

/-- One iteration of the grouping loop of `addFunctionCompletions`
(driver.ts lines 490-528): merge a source row into the per-label metadata
map. -/
def processFunctionRow (parse : String → Option JsVal)
    (metaMap : List (String × TFunctionCompletionMeta))
    (item : TDynamicFunctionRow) : List (String × TFunctionCompletionMeta) :=
  match rowLabel item with
  | none => metaMap
  | some label =>
    objSet metaMap label
      (rowNewMeta parse item ((metaMap.lookup label).getD emptyFunctionMeta) label)

/-- The documentation block rendered for a merged function label
(driver.ts lines 530-552). -/
def docValueOf (label : String) (meta : TFunctionCompletionMeta) : String :=
  let categories := meta.categories
  let returnTypes := meta.returnTypes.take 3
  let tags := meta.tags.take 6
  let signatures := meta.signatures.take 8
  let joinedCategories := String.intercalate ", " categories
  let yaml :=
    "```yaml\nWORD: " ++ label ++ "\nTYPE: " ++
    (if joinedCategories ≠ "" then joinedCategories else "FUNCTION") ++
    (if returnTypes ≠ [] then "\nRETURNS: " ++ String.intercalate ", " returnTypes
     else "") ++
    (if tags ≠ [] then "\nTAGS: " ++ String.intercalate ", " tags else "") ++
    "\n```"
  let signatureBlock :=
    if signatures ≠ [] then
      "\n\nSignatures:\n" ++
      String.intercalate "\n" (signatures.map (fun s => "- `" ++ s ++ "`"))
    else ""
  let descriptionBlock :=
    if meta.description ≠ "" then "\n\n" ++ meta.description else ""
  yaml ++ signatureBlock ++ descriptionBlock

/-- The per-label output step of `addFunctionCompletions`
(driver.ts lines 553-572): append the documentation to a colliding entry, or
create a fresh function entry. -/
def applyFunctionMeta (completions : Completions) (label : String)
    (meta : TFunctionCompletionMeta) : Completions :=
  let docValue := docValueOf label meta
  match completions.lookup label with
  | some existing =>
    let existingDocumentation := jsTrim existing.documentation
    objSet completions label
      { existing with
        documentation :=
          if existingDocumentation ≠ "" then
            existingDocumentation ++ "\n\n" ++ docValue
          else docValue }
  | none =>
    objSet completions label
      { label,
        detail := ((meta.signatures.take 8).headD (label ++ "(...)")),
        filterText := label,
        sortText := functionSortText label,
        documentation := docValue }

/-- `addFunctionCompletions` (driver.ts lines 487-574): group the rows by
normalized label, then fold the grouped metadata into the completion index. -/
def addFunctionCompletions (parse : String → Option JsVal)
    (items : List TDynamicFunctionRow) (completions : Completions) : Completions :=
  let functionMetaByLabel := items.foldl (processFunctionRow parse) []
  functionMetaByLabel.foldl (fun comps kv => applyFunctionMeta comps kv.1 kv.2)
    completions

/-- Componentwise containment of function metadata: everything recorded in
the first is still recorded in the second. -/
def metaSub (m1 m2 : TFunctionCompletionMeta) : Prop :=
  (∀ x ∈ m1.categories, x ∈ m2.categories) ∧
  (∀ x ∈ m1.returnTypes, x ∈ m2.returnTypes) ∧
  (∀ x ∈ m1.signatures, x ∈ m2.signatures) ∧
  (∀ x ∈ m1.tags, x ∈ m2.tags) ∧
  (m1.description ≠ "" → m2.description = m1.description)

/-! ### Helper lemmas about `jsTrim` -/

theorem dropWhile_dropWhile (p : Char → Bool) (l : List Char) :
    (l.dropWhile p).dropWhile p = l.dropWhile p := by
  cases h : l.dropWhile p with
  | nil => simp
  | cons a as =>
    have hpa : p a = false := by
      have hh := List.head?_dropWhile_not p l
      rw [h] at hh
      simpa using hh
    simp [List.dropWhile_cons, hpa]

theorem trimChars_idem (l : List Char) :
    trimChars (trimChars l) = trimChars l := by
  unfold trimChars
  have h1 : ((((l.dropWhile isJsSpace).reverse.dropWhile isJsSpace).reverse).dropWhile isJsSpace)
      = ((l.dropWhile isJsSpace).reverse.dropWhile isJsSpace).reverse := by
    cases hBr : ((l.dropWhile isJsSpace).reverse.dropWhile isJsSpace).reverse with
    | nil => simp
    | cons b bs =>
      have hsplit : (l.dropWhile isJsSpace).reverse.takeWhile isJsSpace ++
          (l.dropWhile isJsSpace).reverse.dropWhile isJsSpace =
          (l.dropWhile isJsSpace).reverse :=
        List.takeWhile_append_dropWhile isJsSpace (l.dropWhile isJsSpace).reverse
      have hAeq : l.dropWhile isJsSpace =
          b :: (bs ++ ((l.dropWhile isJsSpace).reverse.takeWhile isJsSpace).reverse) := by
        calc l.dropWhile isJsSpace
            = (l.dropWhile isJsSpace).reverse.reverse := (List.reverse_reverse _).symm
          _ = ((l.dropWhile isJsSpace).reverse.takeWhile isJsSpace ++
                (l.dropWhile isJsSpace).reverse.dropWhile isJsSpace).reverse := by
                rw [hsplit]
          _ = ((l.dropWhile isJsSpace).reverse.dropWhile isJsSpace).reverse ++
                ((l.dropWhile isJsSpace).reverse.takeWhile isJsSpace).reverse := by
                rw [List.reverse_append]
          _ = b :: (bs ++ ((l.dropWhile isJsSpace).reverse.takeWhile isJsSpace).reverse) := by
                rw [hBr]
                simp
      have hpb : isJsSpace b = false := by
        have hh := List.head?_dropWhile_not isJsSpace l
        rw [hAeq] at hh
        simpa using hh
      simp [List.dropWhile_cons, hpb]
  rw [h1, List.reverse_reverse, dropWhile_dropWhile]

theorem jsTrim_mk (l : List Char) : jsTrim ⟨l⟩ = ⟨trimChars l⟩ := rfl

theorem jsTrim_idem (s : String) : jsTrim (jsTrim s) = jsTrim s := by
  show (⟨trimChars (jsTrim s).data⟩ : String) = jsTrim s
  have : (jsTrim s).data = trimChars s.data := rfl
  rw [this, trimChars_idem]
  rfl

/-! ### Statements produced by the splitter are non-empty and trimmed -/

theorem splitAux_block_step (ch : Char) (r : List Char) (s : List String)
    (c : String) (sq dq : Bool)
    (hne : ∀ rest2, ch = '*' → r = '/' :: rest2 → False) :
    splitAux (ch :: r) s c sq dq false true
      = splitAux r s (c.push ch) sq dq false true := by
  rw [splitAux.eq_def]
  simp only [Bool.false_eq_true, if_false, if_true]

theorem splitAux_squote_step (ch : Char) (r : List Char) (s : List String)
    (c : String) (dq : Bool)
    (hne : ∀ rest2, ch = '\'' → r = '\'' :: rest2 → False) :
    splitAux (ch :: r) s c true dq false false
      = splitAux r s (c.push ch) (ch != '\'') dq false false := by
  rw [splitAux.eq_def]
  simp only [Bool.false_eq_true, if_false, if_true]

theorem splitAux_dquote_step (ch : Char) (r : List Char) (s : List String)
    (c : String)
    (hne : ∀ rest2, ch = '"' → r = '"' :: rest2 → False) :
    splitAux (ch :: r) s c false true false false
      = splitAux r s (c.push ch) false (ch != '"') false false := by
  rw [splitAux.eq_def]
  simp only [Bool.false_eq_true, if_false, if_true]

theorem splitAux_lineComment_step (ch : Char) (rest : List Char)
    (s : List String) (c : String) (sq dq bc : Bool) :
    splitAux (ch :: rest) s c sq dq true bc
      = splitAux rest s (c.push ch) sq dq (ch != '\n') bc := by
  rw [splitAux.eq_def]
  rfl

theorem splitAux_blockEnd_step (rest2 : List Char) (s : List String)
    (c : String) (sq dq : Bool) :
    splitAux ('*' :: '/' :: rest2) s c sq dq false true
      = splitAux rest2 s ((c.push '*').push '/') sq dq false false := by
  rw [splitAux.eq_def]
  rfl

theorem splitAux_squoteEsc_step (rest2 : List Char) (s : List String)
    (c : String) (dq : Bool) :
    splitAux ('\'' :: '\'' :: rest2) s c true dq false false
      = splitAux rest2 s ((c.push '\'').push '\'') true dq false false := by
  rw [splitAux.eq_def]
  rfl

theorem splitAux_dquoteEsc_step (rest2 : List Char) (s : List String)
    (c : String) :
    splitAux ('"' :: '"' :: rest2) s c false true false false
      = splitAux rest2 s ((c.push '"').push '"') false true false false := by
  rw [splitAux.eq_def]
  rfl

theorem splitAux_lineStart_step (rest2 : List Char) (s : List String)
    (c : String) :
    splitAux ('-' :: '-' :: rest2) s c false false false false
      = splitAux rest2 s ((c.push '-').push '-') false false true false := by
  rw [splitAux.eq_def]
  rfl

theorem splitAux_blockStart_step (rest2 : List Char) (s : List String)
    (c : String) :
    splitAux ('/' :: '*' :: rest2) s c false false false false
      = splitAux rest2 s ((c.push '/').push '*') false false false true := by
  rw [splitAux.eq_def]
  rfl

theorem splitAux_squoteOpen_step (r : List Char) (s : List String)
    (c : String) :
    splitAux ('\'' :: r) s c false false false false
      = splitAux r s (c.push '\'') true false false false := by
  rw [splitAux.eq_def]
  rfl

theorem splitAux_dquoteOpen_step (r : List Char) (s : List String)
    (c : String) :
    splitAux ('"' :: r) s c false false false false
      = splitAux r s (c.push '"') false true false false := by
  rw [splitAux.eq_def]
  rfl

theorem splitAux_semicolon_step (r : List Char) (s : List String)
    (c : String) :
    splitAux (';' :: r) s c false false false false
      = splitAux r (if jsTrim c = "" then s else s ++ [jsTrim c]) ""
          false false false false := by
  rw [splitAux.eq_def]
  simp only [Bool.false_eq_true, if_false, if_true]

theorem splitAux_normal_step (ch : Char) (r : List Char) (s : List String)
    (c : String)
    (h1 : ∀ rest2, ch = '-' → r = '-' :: rest2 → False)
    (h2 : ∀ rest2, ch = '/' → r = '*' :: rest2 → False)
    (h3 : ch = '\'' → False) (h4 : ch = '"' → False) (h5 : ch = ';' → False) :
    splitAux (ch :: r) s c false false false false
      = splitAux r s (c.push ch) false false false false := by
  rw [splitAux.eq_def]
  simp only [Bool.false_eq_true, if_false, if_true]

theorem splitAux_invariant (cs : List Char) (statements : List String)
    (current : String) (sq dq lc bc : Bool) :
    (∀ x ∈ statements, x ≠ "" ∧ jsTrim x = x) →
    ∀ x ∈ splitAux cs statements current sq dq lc bc, x ≠ "" ∧ jsTrim x = x := by
  induction cs, statements, current, sq, dq, lc, bc using splitAux.induct with
  | case1 statements current =>
    intro h x hx
    simp only [splitAux] at hx
    by_cases htail : jsTrim current = ""
    · rw [if_pos htail] at hx
      exact h x hx
    · rw [if_neg htail] at hx
      rcases List.mem_append.1 hx with hmem | hmem
      · exact h x hmem
      · have hx2 : x = jsTrim current := by simpa using hmem
        subst hx2
        exact ⟨htail, jsTrim_idem current⟩
  | case2 statements current =>
    intro h x hx
    simp only [splitAux] at hx
    by_cases htail : jsTrim current = ""
    · rw [if_pos htail] at hx
      exact h x hx
    · rw [if_neg htail] at hx
      rcases List.mem_append.1 hx with hmem | hmem
      · exact h x hmem
      · have hx2 : x = jsTrim current := by simpa using hmem
        subst hx2
        exact ⟨htail, jsTrim_idem current⟩
  | case3 ch rest statements current sq dq bc ih =>
    intro h x hx
    rw [splitAux_lineComment_step] at hx
    exact ih h x hx
  | case4 statements current sq dq lc hlc rest2 ih =>
    rw [Bool.not_eq_true] at hlc
    subst hlc
    intro h x hx
    rw [splitAux_blockEnd_step] at hx
    exact ih h x hx
  | case5 statements current sq dq lc hlc ch r hne ih =>
    rw [Bool.not_eq_true] at hlc
    subst hlc
    intro h x hx
    rw [splitAux_block_step ch r statements current sq dq hne] at hx
    exact ih h x hx
  | case6 statements current dq lc bc hlc hbc rest2 ih =>
    rw [Bool.not_eq_true] at hlc hbc
    subst hlc; subst hbc
    intro h x hx
    rw [splitAux_squoteEsc_step] at hx
    exact ih h x hx
  | case7 statements current dq lc bc hlc hbc ch r hne ih =>
    rw [Bool.not_eq_true] at hlc hbc
    subst hlc; subst hbc
    intro h x hx
    rw [splitAux_squote_step ch r statements current dq hne] at hx
    exact ih h x hx
  | case8 statements current sq lc bc hlc hbc hsq rest2 ih =>
    rw [Bool.not_eq_true] at hlc hbc hsq
    subst hlc; subst hbc; subst hsq
    intro h x hx
    rw [splitAux_dquoteEsc_step] at hx
    exact ih h x hx
  | case9 statements current sq lc bc hlc hbc hsq ch r hne ih =>
    rw [Bool.not_eq_true] at hlc hbc hsq
    subst hlc; subst hbc; subst hsq
    intro h x hx
    rw [splitAux_dquote_step ch r statements current hne] at hx
    exact ih h x hx
  | case10 statements current sq dq lc bc hlc hbc hsq hdq rest2 ih =>
    rw [Bool.not_eq_true] at hlc hbc hsq hdq
    subst hlc; subst hbc; subst hsq; subst hdq
    intro h x hx
    rw [splitAux_lineStart_step] at hx
    exact ih h x hx
  | case11 statements current sq dq lc bc hlc hbc hsq hdq rest2 ih =>
    rw [Bool.not_eq_true] at hlc hbc hsq hdq
    subst hlc; subst hbc; subst hsq; subst hdq
    intro h x hx
    rw [splitAux_blockStart_step] at hx
    exact ih h x hx
  | case12 statements current sq dq lc bc hlc hbc hsq hdq r ih =>
    rw [Bool.not_eq_true] at hlc hbc hsq hdq
    subst hlc; subst hbc; subst hsq; subst hdq
    intro h x hx
    rw [splitAux_squoteOpen_step] at hx
    exact ih h x hx
  | case13 statements current sq dq lc bc hlc hbc hsq hdq r ih =>
    rw [Bool.not_eq_true] at hlc hbc hsq hdq
    subst hlc; subst hbc; subst hsq; subst hdq
    intro h x hx
    rw [splitAux_dquoteOpen_step] at hx
    exact ih h x hx
  | case14 statements current sq dq lc bc hlc hbc hsq hdq r trimmed ih =>
    rw [Bool.not_eq_true] at hlc hbc hsq hdq
    subst hlc; subst hbc; subst hsq; subst hdq
    intro h x hx
    rw [splitAux_semicolon_step] at hx
    refine ih ?_ x hx
    intro y hy
    by_cases htr : jsTrim current = ""
    · rw [if_pos htr] at hy
      exact h y hy
    · rw [if_neg htr] at hy
      rcases List.mem_append.1 hy with hmem | hmem
      · exact h y hmem
      · have hy2 : y = jsTrim current := by simpa using hmem
        subst hy2
        exact ⟨htr, jsTrim_idem current⟩
  | case15 statements current sq dq lc bc hlc hbc hsq hdq ch r g1 g2 g3 g4 g5 ih =>
    rw [Bool.not_eq_true] at hlc hbc hsq hdq
    subst hlc; subst hbc; subst hsq; subst hdq
    intro h x hx
    rw [splitAux_normal_step ch r statements current g1 g2 g3 g4 g5] at hx
    exact ih h x hx

/-! ### Whitespace facts -/

theorem isJsSpace_not_special (c : Char) (h : isJsSpace c = true) :
    c ≠ '-' ∧ c ≠ '/' ∧ c ≠ '\'' ∧ c ≠ '"' ∧ c ≠ ';' ∧ c ≠ '*' := by
  simp only [isJsSpace, Bool.or_eq_true, decide_eq_true_eq] at h
  rcases h with ((((((h | h) | h) | h) | h) | h) | h) | h <;> subst h <;>
    exact ⟨by decide, by decide, by decide, by decide, by decide, by decide⟩

theorem jsTrim_allspace (l : List Char) (h : l.all isJsSpace = true) :
    jsTrim ⟨l⟩ = "" := by
  have hd : l.dropWhile isJsSpace = [] :=
    List.dropWhile_eq_nil_iff.2 (by simpa [List.all_eq_true] using h)
  show (⟨trimChars l⟩ : String) = ""
  unfold trimChars
  rw [hd]
  rfl

theorem splitAux_ws (cs : List Char) :
    (∀ c ∈ cs, isJsSpace c = true ∨ c = ';') →
    ∀ (stmts : List String) (current : String),
      current.data.all isJsSpace = true →
      splitAux cs stmts current false false false false = stmts := by
  induction cs with
  | nil =>
    intro _ stmts current hcur
    have : jsTrim current = "" := jsTrim_allspace current.data hcur
    simp only [splitAux, this]
    rfl
  | cons c cs ih =>
    intro hall stmts current hcur
    rcases hall c (List.mem_cons_self c cs) with hsp | hsemi
    · obtain ⟨h1, h2, h3, h4, h5, _⟩ := isJsSpace_not_special c hsp
      rw [splitAux_normal_step c cs stmts current
            (fun _ he _ => h1 he) (fun _ he _ => h2 he)
            (fun he => h3 he) (fun he => h4 he) (fun he => h5 he)]
      apply ih (fun d hd => hall d (List.mem_cons_of_mem c hd))
      have : (current.push c).data = current.data ++ [c] := by
        simp [String.push]
      rw [this]
      simp only [List.all_append, hcur, Bool.true_and, List.all_cons, List.all_nil,
        Bool.and_true, hsp]
    · subst hsemi
      rw [splitAux_semicolon_step]
      rw [jsTrim_allspace current.data hcur]
      simp only [if_pos rfl]
      apply ih (fun d hd => hall d (List.mem_cons_of_mem _ hd)) stmts ""
      rfl

/-! ### Claims about the statement splitter -/

/-- C4: a `;` inside a single-quoted region, a double-quoted region, a `--`
line comment or a `/* */` block comment never ends a statement (the scanner
step on `;` in each non-normal mode only appends the character to the
accumulator and leaves the emitted statement list untouched); in particular
`split "SELECT \';\' ; SELECT 1;"` yields exactly the two statements, and an
unterminated block comment consumes the rest of the input as one statement. -/
theorem C4_semicolon_never_splits_in_quotes_or_comments :
    (∀ (rest : List Char) (s : List String) (c : String) (sq dq bc : Bool),
        splitAux (';' :: rest) s c sq dq true bc
          = splitAux rest s (c.push ';') sq dq true bc) ∧
    (∀ (rest : List Char) (s : List String) (c : String) (sq dq : Bool),
        splitAux (';' :: rest) s c sq dq false true
          = splitAux rest s (c.push ';') sq dq false true) ∧
    (∀ (rest : List Char) (s : List String) (c : String) (dq : Bool),
        splitAux (';' :: rest) s c true dq false false
          = splitAux rest s (c.push ';') true dq false false) ∧
    (∀ (rest : List Char) (s : List String) (c : String),
        splitAux (';' :: rest) s c false true false false
          = splitAux rest s (c.push ';') false true false false) ∧
    splitSqlStatements "SELECT ';' ; SELECT 1;" = ["SELECT ';'", "SELECT 1"] ∧
    splitSqlStatements "SELECT \";\" ; SELECT 1;" = ["SELECT \";\"", "SELECT 1"] ∧
    splitSqlStatements "-- a;\nSELECT 1;" = ["-- a;\nSELECT 1"] ∧
    splitSqlStatements "SELECT 1; /* c ; c" = ["SELECT 1", "/* c ; c"] := by
  refine ⟨?_, ?_, ?_, ?_, by decide, by decide, by decide, by decide⟩
  · intro rest s c sq dq bc
    rw [splitAux_lineComment_step]
    rfl
  · intro rest s c sq dq
    exact splitAux_block_step ';' rest s c sq dq
      (fun _ he _ => by cases he)
  · intro rest s c dq
    exact splitAux_squote_step ';' rest s c dq (fun _ he _ => by cases he)
  · intro rest s c
    exact splitAux_dquote_step ';' rest s c (fun _ he _ => by cases he)

/-- C7: a script whose text after the last top-level `;` trims to something
non-empty has that trimmed text appended as the final statement (the
end-of-input step of the scanner); `split "SELECT 1"` is exactly
`["SELECT 1"]`; and every element of the splitter output is a non-empty
trimmed string. -/
theorem C7_trailing_statement_and_output_shape :
    splitSqlStatements "SELECT 1" = ["SELECT 1"] ∧
    (∀ (stmts : List String) (current : String) (sq dq lc bc : Bool),
        splitAux [] stmts current sq dq lc bc
          = stmts ++ (if jsTrim current = "" then [] else [jsTrim current])) ∧
    (∀ (s : String), ∀ x ∈ splitSqlStatements s, x ≠ "" ∧ jsTrim x = x) := by
  refine ⟨by decide, ?_, ?_⟩
  · intro stmts current sq dq lc bc
    simp only [splitAux]
    by_cases h : jsTrim current = "" <;> simp [h]
  · intro s x hx
    exact splitAux_invariant s.data [] "" false false false false
      (by intro y hy; cases hy) x hx

/-- C7 witness: the trailing-statement equation and the output-shape
invariant evaluated at concrete inputs. -/
theorem C7_witness :
    ("SELECT 1" ≠ "" ∧ jsTrim "SELECT 1" = "SELECT 1") ∧
    splitAux [] ["A"] "  tail " false false false false = ["A", "tail"] := by
  constructor
  · exact (C7_trailing_statement_and_output_shape.2.2 "SELECT 1" "SELECT 1"
      (by decide))
  · have h := C7_trailing_statement_and_output_shape.2.1 ["A"] "  tail "
      false false false false
    simpa using h

/-- C10: a script consisting only of whitespace characters and top-level
semicolons splits into the empty statement list, and `query` on it returns
no results and never invokes the CLI (empty execution trace). -/
theorem C10_whitespace_only_script_runs_nothing
    (script : String) (exec : String → Except String (List Row))
    (connId requestId : Nat)
    (h : ∀ c ∈ script.data, isJsSpace c = true ∨ c = ';') :
    splitSqlStatements script = [] ∧
    queryDriver exec connId requestId script = ([], []) := by
  have hsplit : splitSqlStatements script = [] := by
    unfold splitSqlStatements
    exact splitAux_ws script.data h [] "" rfl
  refine ⟨hsplit, ?_⟩
  unfold queryDriver
  rw [hsplit]
  rfl

/-- C10 witness: the theorem applied to the concrete script `"  ; ; "`. -/
theorem C10_witness :
    splitSqlStatements "  ; ; " = [] ∧
    queryDriver (fun _ => .ok []) 1 2 "  ; ; " = ([], []) :=
  C10_whitespace_only_script_runs_nothing "  ; ; " (fun _ => .ok []) 1 2
    (by decide)

/-! ### Association-list and set-emulation lemmas -/

theorem lookup_some_mem_keys {α : Type} (k : String) (v : α) :
    ∀ (m : List (String × α)), List.lookup k m = some v → k ∈ keysOf m
  | [], h => absurd h (by simp)
  | kv :: rest, h => by
    by_cases hk : k = kv.1
    · simp [keysOf, hk]
    · rw [List.lookup_cons, beq_eq_false_iff_ne.2 hk] at h
      simp only [keysOf, List.map_cons, List.mem_cons]
      exact Or.inr (lookup_some_mem_keys k v rest h)

theorem contains_keys_iff {α : Type} (m : List (String × α)) (k : String) :
    (keysOf m).contains k = true ↔ k ∈ keysOf m :=
  List.elem_iff

theorem lookup_overwrite {α : Type} (k : String) (v : α) :
    ∀ (m : List (String × α)), k ∈ keysOf m →
      List.lookup k (m.map (fun kv => if kv.1 = k then (k, v) else kv)) = some v
  | [], h => absurd h (by simp [keysOf])
  | kv :: rest, h => by
    by_cases hk : kv.1 = k
    · simp [List.map_cons, if_pos hk]
    · have hmem : k ∈ keysOf rest := by
        simp only [keysOf, List.map_cons, List.mem_cons] at h
        rcases h with h | h
        · exact absurd h.symm hk
        · exact h
      rw [List.map_cons, if_neg hk, List.lookup_cons,
        beq_eq_false_iff_ne.2 (fun he => hk he.symm)]
      exact lookup_overwrite k v rest hmem

theorem lookup_overwrite_ne {α : Type} (k k' : String) (v : α) (h : k' ≠ k) :
    ∀ (m : List (String × α)),
      List.lookup k' (m.map (fun kv => if kv.1 = k then (k, v) else kv))
        = List.lookup k' m
  | [] => rfl
  | kv :: rest => by
    by_cases hk : kv.1 = k
    · rw [List.map_cons, if_pos hk, List.lookup_cons, List.lookup_cons,
        beq_eq_false_iff_ne.2 h]
      have : (k' == kv.1) = false := by
        rw [hk]
        exact beq_eq_false_iff_ne.2 h
      rw [this]
      exact lookup_overwrite_ne k k' v h rest
    · rw [List.map_cons, if_neg hk, List.lookup_cons, List.lookup_cons]
      cases hbeq : (k' == kv.1) with
      | true => rfl
      | false => exact lookup_overwrite_ne k k' v h rest

theorem lookup_append_single {α : Type} (k : String) (v : α) :
    ∀ (m : List (String × α)), List.lookup k (m ++ [(k, v)]) = some v ∨
      ∃ w, List.lookup k m = some w ∧ List.lookup k (m ++ [(k, v)]) = some w
  | [] => Or.inl (by simp)
  | kv :: rest => by
    by_cases hk : k = kv.1
    · right
      refine ⟨kv.2, ?_, ?_⟩
      · rw [show kv = (kv.1, kv.2) from rfl, ← hk, List.lookup_cons_self]
      · rw [List.cons_append, show kv = (kv.1, kv.2) from rfl, ← hk,
          List.lookup_cons_self]
    · rw [List.cons_append, List.lookup_cons, List.lookup_cons,
        beq_eq_false_iff_ne.2 hk]
      exact lookup_append_single k v rest

theorem lookup_append_single_of_not_mem {α : Type} (k : String) (v : α)
    (m : List (String × α)) (h : k ∉ keysOf m) :
    List.lookup k (m ++ [(k, v)]) = some v := by
  rcases lookup_append_single k v m with hc | ⟨w, hw, _⟩
  · exact hc
  · exact absurd (lookup_some_mem_keys k w m hw) h

theorem lookup_append_single_ne {α : Type} (k k' : String) (v : α)
    (h : k' ≠ k) :
    ∀ (m : List (String × α)),
      List.lookup k' (m ++ [(k, v)]) = List.lookup k' m
  | [] => by simp [List.lookup_cons, beq_eq_false_iff_ne.2 h]
  | kv :: rest => by
    rw [List.cons_append, List.lookup_cons, List.lookup_cons]
    cases hbeq : (k' == kv.1) with
    | true => rfl
    | false => exact lookup_append_single_ne k k' v h rest

theorem lookup_objSet_self {α : Type} (m : List (String × α)) (k : String)
    (v : α) : List.lookup k (objSet m k v) = some v := by
  unfold objSet
  by_cases hc : (keysOf m).contains k = true
  · rw [if_pos hc]
    exact lookup_overwrite k v m ((contains_keys_iff m k).1 hc)
  · rw [if_neg hc]
    exact lookup_append_single_of_not_mem k v m
      (fun hm => hc ((contains_keys_iff m k).2 hm))

theorem lookup_objSet_ne {α : Type} (m : List (String × α)) (k k' : String)
    (v : α) (h : k' ≠ k) :
    List.lookup k' (objSet m k v) = List.lookup k' m := by
  unfold objSet
  by_cases hc : (keysOf m).contains k = true
  · rw [if_pos hc]
    exact lookup_overwrite_ne k k' v h m
  · rw [if_neg hc]
    exact lookup_append_single_ne k k' v h m

theorem keysOf_map_overwrite {α : Type} (k : String) (v : α) :
    ∀ (m : List (String × α)),
      keysOf (m.map (fun kv => if kv.1 = k then (k, v) else kv)) = keysOf m
  | [] => rfl
  | kv :: rest => by
    by_cases hk : kv.1 = k
    · simp only [keysOf, List.map_cons, if_pos hk, hk]
      exact congrArg (k :: ·) (keysOf_map_overwrite k v rest)
    · simp only [keysOf, List.map_cons, if_neg hk]
      exact congrArg (kv.1 :: ·) (keysOf_map_overwrite k v rest)

theorem keysOf_objSet {α : Type} (m : List (String × α)) (k : String) (v : α) :
    keysOf (objSet m k v) =
      if (keysOf m).contains k then keysOf m else keysOf m ++ [k] := by
  unfold objSet
  by_cases hc : (keysOf m).contains k = true
  · rw [if_pos hc, if_pos hc]
    exact keysOf_map_overwrite k v m
  · rw [if_neg hc, if_neg hc]
    simp [keysOf]

theorem keysOf_objSet_nodup {α : Type} (m : List (String × α)) (k : String)
    (v : α) (h : (keysOf m).Nodup) : (keysOf (objSet m k v)).Nodup := by
  rw [keysOf_objSet]
  by_cases hc : (keysOf m).contains k = true
  · rw [if_pos hc]; exact h
  · rw [if_neg hc]
    have hk : k ∉ keysOf m := fun hm => hc ((contains_keys_iff m k).2 hm)
    simp [List.nodup_append, h, hk]

theorem mem_setAdd_self (l : List String) (x : String) : x ∈ setAdd l x := by
  unfold setAdd
  by_cases hc : l.contains x = true
  · rw [if_pos hc]; exact List.elem_iff.1 hc
  · rw [if_neg hc]; simp

theorem mem_setAdd_of_mem (l : List String) (x y : String) (h : y ∈ l) :
    y ∈ setAdd l x := by
  unfold setAdd
  by_cases hc : l.contains x = true
  · rw [if_pos hc]; exact h
  · rw [if_neg hc]; simp [h]

theorem mem_foldl_setAdd (ts : List String) :
    ∀ (l : List String) (y : String), y ∈ l → y ∈ ts.foldl setAdd l := by
  induction ts with
  | nil => intro l y h; exact h
  | cons t ts ih =>
    intro l y h
    exact ih (setAdd l t) y (mem_setAdd_of_mem l t y h)

theorem metaSub_refl (m : TFunctionCompletionMeta) : metaSub m m :=
  ⟨fun _ h => h, fun _ h => h, fun _ h => h, fun _ h => h, fun _ => rfl⟩

theorem metaSub_trans {a b c : TFunctionCompletionMeta}
    (h1 : metaSub a b) (h2 : metaSub b c) : metaSub a c := by
  obtain ⟨c1, r1, s1, t1, d1⟩ := h1
  obtain ⟨c2, r2, s2, t2, d2⟩ := h2
  refine ⟨fun x hx => c2 x (c1 x hx), fun x hx => r2 x (r1 x hx),
    fun x hx => s2 x (s1 x hx), fun x hx => t2 x (t1 x hx), fun hd => ?_⟩
  rw [d2, d1 hd]
  rw [d1 hd]
  exact hd

/-! ### Claims about the query execution loop -/

theorem queryGo_fail_spec (exec : String → Except String (List Row))
    (cid rid : Nat) (rows : String → List Row)
    (pre : List String) (qf : String) (post : List String) (e : String)
    (hpre : ∀ q ∈ pre, exec q = .ok (rows q)) (hf : exec qf = .error e) :
    ∀ idx, queryGo exec cid rid (pre ++ qf :: post) idx =
      (((pre.enumFrom idx).map fun p => mkSuccessResult cid rid p.1 p.2 (rows p.2)) ++
        [mkErrorResult cid rid (idx + pre.length) qf e],
       pre ++ [qf]) := by
  induction pre with
  | nil =>
    intro idx
    simp [queryGo, hf]
  | cons q pre ih =>
    intro idx
    have hq := hpre q (List.mem_cons_self q pre)
    have ih2 := ih (fun p hp => hpre p (List.mem_cons_of_mem q hp)) (idx + 1)
    have harith : idx + 1 + pre.length = idx + (pre.length + 1) := by omega
    simp [queryGo, hq, ih2, harith, List.enumFrom_cons]

/-- C1: when the statements of a script split into `pre ++ qf :: post` and the
CLI oracle succeeds on every statement of `pre` but fails on `qf`, `query`
returns exactly `pre.length + 1` results: one success per statement of `pre`
in order, then one error-flagged result for `qf`; the statements of `post`
are never handed to the CLI (the execution trace is exactly `pre ++ [qf]`),
and the previously produced results are preserved in the returned list. -/
theorem C1_fail_fast (exec : String → Except String (List Row))
    (cid rid : Nat) (script : String) (rows : String → List Row)
    (pre : List String) (qf : String) (post : List String) (e : String)
    (hsplit : (splitSqlStatements script).filter (fun s => s != "") = pre ++ qf :: post)
    (hpre : ∀ q ∈ pre, exec q = .ok (rows q))
    (hf : exec qf = .error e) :
    queryDriver exec cid rid script =
      (((pre.enumFrom 0).map fun p => mkSuccessResult cid rid p.1 p.2 (rows p.2)) ++
        [mkErrorResult cid rid pre.length qf e],
       pre ++ [qf]) := by
  unfold queryDriver
  rw [hsplit]
  simpa using queryGo_fail_spec exec cid rid rows pre qf post e hpre hf 0

/-- C1 witness: a three-statement script whose second statement fails,
evaluated with a concrete CLI oracle. -/
theorem C1_witness :
    queryDriver
        (fun q => if q = "BAD" then Except.error "boom"
                  else Except.ok [[("1", "1")]])
        7 5 "SELECT 1; BAD; SELECT 2;" =
      ([mkSuccessResult 7 5 0 "SELECT 1" [[("1", "1")]],
        mkErrorResult 7 5 1 "BAD" "boom"],
       ["SELECT 1", "BAD"]) := by
  have h := C1_fail_fast
    (fun q => if q = "BAD" then Except.error "boom" else Except.ok [[("1", "1")]])
    7 5 "SELECT 1; BAD; SELECT 2;"
    (fun _ => [[("1", "1")]])
    ["SELECT 1"] "BAD" ["SELECT 2"] "boom"
    (by decide)
    (by intro q hq; simp only [List.mem_singleton] at hq; subst hq; rfl)
    rfl
  simpa using h

theorem queryGo_mem_spec (exec : String → Except String (List Row))
    (cid rid : Nat) :
    ∀ (l : List String) (idx : Nat), ∀ r ∈ (queryGo exec cid rid l idx).1,
      (r.error = true →
        r.results = [] ∧ ∃ e, exec r.query = .error e ∧ r.messages = [e]) ∧
      (r.error = false →
        exec r.query = .ok r.results ∧
        r.messages = (if r.results.length = 0 && !(isResultSetQuery r.query) then
            ["Statement executed successfully."] else [])) := by
  intro l
  induction l with
  | nil => intro idx r hr; cases hr
  | cons q rest ih =>
    intro idx r hr
    rw [queryGo] at hr
    cases hq : exec q with
    | ok results =>
      rw [hq] at hr
      simp only [List.mem_cons] at hr
      rcases hr with hr | hr
      · subst hr
        constructor
        · intro habs; cases habs
        · intro _
          exact ⟨hq, rfl⟩
      · exact ih (idx + 1) r hr
    | error e =>
      rw [hq] at hr
      simp only [List.mem_singleton] at hr
      subst hr
      constructor
      · intro _
        exact ⟨rfl, e, hq, rfl⟩
      · intro habs; cases habs

/-- C5: for every result produced by `query`: an error-flagged result has an
empty row list and exactly one message carrying the error text reported for
its statement; a successful result carries the rows the CLI returned, and
its message list is the single informational message exactly when it has
zero rows and its statement is not result-set-shaped, and is empty
otherwise. -/
theorem C5_result_classification (exec : String → Except String (List Row))
    (cid rid : Nat) (script : String) :
    ∀ r ∈ (queryDriver exec cid rid script).1,
      (r.error = true →
        r.results = [] ∧ ∃ e, exec r.query = .error e ∧ r.messages = [e]) ∧
      (r.error = false →
        exec r.query = .ok r.results ∧
        r.messages = (if r.results.length = 0 && !(isResultSetQuery r.query) then
            ["Statement executed successfully."] else [])) := by
  intro r hr
  exact queryGo_mem_spec exec cid rid _ 0 r hr

/-- C5 witness: the classification applied to the error result and to the
zero-row non-result-set success result of a concrete batch. -/
theorem C5_witness :
    (mkErrorResult 7 5 1 "BAD" "boom" ∈
      (queryDriver
        (fun q => if q = "BAD" then Except.error "boom"
                  else Except.ok ([] : List Row))
        7 5 "CREATE TABLE t; BAD; SELECT 3;").1) ∧
    ((mkErrorResult 7 5 1 "BAD" "boom").error = true →
      (mkErrorResult 7 5 1 "BAD" "boom").results = [] ∧
      ∃ e, (fun q => if q = "BAD" then Except.error "boom"
                     else Except.ok ([] : List Row))
             (mkErrorResult 7 5 1 "BAD" "boom").query = .error e ∧
        (mkErrorResult 7 5 1 "BAD" "boom").messages = [e]) ∧
    ((mkSuccessResult 7 5 0 "CREATE TABLE t" []).error = false →
      (fun q => if q = "BAD" then Except.error "boom"
                else Except.ok ([] : List Row))
          (mkSuccessResult 7 5 0 "CREATE TABLE t" []).query =
        .ok (mkSuccessResult 7 5 0 "CREATE TABLE t" []).results ∧
      (mkSuccessResult 7 5 0 "CREATE TABLE t" []).messages =
        (if (mkSuccessResult 7 5 0 "CREATE TABLE t" []).results.length = 0 &&
            !(isResultSetQuery (mkSuccessResult 7 5 0 "CREATE TABLE t" []).query) then
            ["Statement executed successfully."] else [])) := by
  refine ⟨by decide, ?_, ?_⟩
  · exact (C5_result_classification
      (fun q => if q = "BAD" then Except.error "boom" else Except.ok ([] : List Row))
      7 5 "CREATE TABLE t; BAD; SELECT 3;"
      (mkErrorResult 7 5 1 "BAD" "boom") (by decide)).1
  · exact (C5_result_classification
      (fun q => if q = "BAD" then Except.error "boom" else Except.ok ([] : List Row))
      7 5 "CREATE TABLE t; BAD; SELECT 3;"
      (mkSuccessResult 7 5 0 "CREATE TABLE t" []) (by decide)).2

/-! ### Claims about the executable resolver and open -/

/-- C6: when an explicit executable path is configured (under either alias)
and it fails validation, resolution fails immediately with the descriptive
error, and the only path ever handed to validation is the configured one:
the environment override and the auto-discovery candidates are never
consulted. -/
theorem C6_configured_path_fail_fast (toAbs : String → String)
    (existsSync : String → Bool)
    (execFileVersion : String → Except ExecError Unit)
    (creds : Credentials) (envVal platform msg : String)
    (hconf : getConfiguredExecutablePath toAbs creds ≠ "")
    (hval : validateExecutablePath existsSync execFileVersion
        (getConfiguredExecutablePath toAbs creds) = .error msg) :
    resolveExecutablePath toAbs existsSync execFileVersion creds envVal platform =
      (.error ("Invalid \"duckdbCliPath\" / \"duckdbPath\": \""
                ++ getConfiguredExecutablePath toAbs creds ++ "\". " ++ msg),
       [getConfiguredExecutablePath toAbs creds]) := by
  unfold resolveExecutablePath
  rw [if_pos hconf, hval]

/-- C6 witness: a configured path-like executable that does not exist on
disk. -/
theorem C6_witness :
    resolveExecutablePath id (fun _ => false) (fun _ => .ok ())
        ⟨":memory:", "/bad/duckdb", "", .undef⟩ "/env/duckdb" "linux" =
      (.error "Invalid \"duckdbCliPath\" / \"duckdbPath\": \"/bad/duckdb\". DuckDB executable not found at \"/bad/duckdb\".",
       ["/bad/duckdb"]) := by
  have h := C6_configured_path_fail_fast id (fun _ => false) (fun _ => .ok ())
    ⟨":memory:", "/bad/duckdb", "", .undef⟩ "/env/duckdb" "linux"
    "DuckDB executable not found at \"/bad/duckdb\"."
    (by decide) rfl
  simpa using h

theorem tryCandidates_ok_trace_ne_nil
    (validate : String → Except String Unit) (p : String) :
    ∀ (cands attempts trace : List String),
      (tryCandidates validate cands attempts trace).1 = .ok p →
      (tryCandidates validate cands attempts trace).2 ≠ [] := by
  intro cands
  induction cands with
  | nil =>
    intro attempts trace h
    simp only [tryCandidates] at h
    exact Except.noConfusion h
  | cons cand rest ih =>
    intro attempts trace h
    rw [tryCandidates] at h ⊢
    cases hv : validate cand with
    | ok _ =>
      simp only [hv]
      simp
    | error msg =>
      simp only [hv] at h ⊢
      exact ih _ _ h

theorem resolve_ok_trace_ne_nil (toAbs : String → String)
    (existsSync : String → Bool)
    (execFileVersion : String → Except ExecError Unit)
    (creds : Credentials) (envVal platform p : String) (tr : List String)
    (h : resolveExecutablePath toAbs existsSync execFileVersion creds envVal platform
          = (.ok p, tr)) :
    tr ≠ [] := by
  unfold resolveExecutablePath at h
  by_cases hconf : getConfiguredExecutablePath toAbs creds ≠ ""
  · rw [if_pos hconf] at h
    cases hv : validateExecutablePath existsSync execFileVersion
        (getConfiguredExecutablePath toAbs creds) with
    | ok _ =>
      simp only [hv] at h
      have h2 : [getConfiguredExecutablePath toAbs creds] = tr :=
        congrArg Prod.snd h
      rw [← h2]
      simp
    | error msg =>
      simp only [hv] at h
      exact Except.noConfusion (congrArg Prod.fst h)
  · rw [if_neg hconf] at h
    by_cases henv : getEnvironmentExecutablePath toAbs envVal ≠ ""
    · rw [if_pos henv] at h
      cases hv : validateExecutablePath existsSync execFileVersion
          (getEnvironmentExecutablePath toAbs envVal) with
      | ok _ =>
        simp only [hv] at h
        have h2 : [getEnvironmentExecutablePath toAbs envVal] = tr :=
          congrArg Prod.snd h
        rw [← h2]
        simp
      | error msg =>
        simp only [hv] at h
        exact Except.noConfusion (congrArg Prod.fst h)
    · rw [if_neg henv] at h
      have h1 : (tryCandidates (validateExecutablePath existsSync execFileVersion)
          (getAutoExecutableCandidates platform) [] []).1 = .ok p := by
        rw [h]
      have h2 := tryCandidates_ok_trace_ne_nil
        (validateExecutablePath existsSync execFileVersion) p
        (getAutoExecutableCandidates platform) [] [] h1
      rw [h] at h2
      exact h2

/-- C2 counterexample: with read-only enabled and an in-memory database,
`open` does run the executable resolver first — at this concrete input the
validation trace is `["duckdb"]`, not empty, even though the call then fails
with the configuration error.  This contradicts the claim that the failure
happens before any executable resolution is attempted. -/
theorem C2_counterexample :
    (openDriver id (fun _ => true) (fun _ => .ok ())
        ⟨":memory:", "", "", .bool true⟩ "" "linux" none).2 = ["duckdb"] ∧
    (openDriver id (fun _ => true) (fun _ => .ok ())
        ⟨":memory:", "", "", .bool true⟩ "" "linux" none).2 ≠ [] ∧
    (openDriver id (fun _ => true) (fun _ => .ok ())
        ⟨":memory:", "", "", .bool true⟩ "" "linux" none).1 =
      .error "Read-only mode is not supported with \":memory:\" database." :=
  ⟨rfl, by decide, rfl⟩

/-- C2 (amended): opening with read-only enabled and database target equal to
the in-memory marker always fails — but only after executable resolution has
been attempted.  When resolution succeeds, `open` fails with the
configuration error and its validation trace is the (non-empty) resolver
trace; no connection is ever produced. -/
theorem C2_amended_readonly_memory_fails_after_resolution
    (toAbs : String → String) (existsSync : String → Bool)
    (execFileVersion : String → Except ExecError Unit)
    (creds : Credentials) (envVal platform p : String) (tr : List String)
    (hres : resolveExecutablePath toAbs existsSync execFileVersion creds envVal platform
        = (.ok p, tr))
    (hro : isReadOnlyEnabled creds.readOnly = true)
    (hmem : jsToLower
        (toAbs (if creds.database = "" then ":memory:" else creds.database))
        = ":memory:") :
    openDriver toAbs existsSync execFileVersion creds envVal platform none =
      (.error "Read-only mode is not supported with \":memory:\" database.", tr) ∧
    tr ≠ [] := by
  constructor
  · unfold openDriver
    rw [hres]
    simp [hro, hmem]
  · exact resolve_ok_trace_ne_nil toAbs existsSync execFileVersion creds
      envVal platform p tr hres

/-- C2 witness: the amended theorem at the concrete counterexample input. -/
theorem C2_witness :
    openDriver id (fun _ => true) (fun _ => .ok ())
        ⟨":memory:", "", "", .bool true⟩ "" "linux" none =
      (.error "Read-only mode is not supported with \":memory:\" database.",
       ["duckdb"]) ∧
    (["duckdb"] : List String) ≠ [] :=
  C2_amended_readonly_memory_fails_after_resolution id (fun _ => true)
    (fun _ => .ok ()) ⟨":memory:", "", "", .bool true⟩ "" "linux" "duckdb"
    ["duckdb"] rfl (by decide) rfl

/-! ### Claims about completion sort priority -/

/-- C3 counterexample: the ordinary keyword `FROM` receives sort-priority
string `4:FROM` while the function `ABS` receives `3:ABS`, so the ordinary
keyword does NOT sort before the function entry — refuting the claimed
keyword-before-function order. -/
theorem C3_counterexample :
    ¬ (keywordSortText "FROM" < functionSortText "ABS") := by
  rw [String.lt_iff_toList_lt]
  decide

theorem sortPrefix_lt (c₁ c₂ : Char) (s t : String) (h : c₁ < c₂) :
    (⟨[c₁, ':']⟩ : String) ++ s < (⟨[c₂, ':']⟩ : String) ++ t := by
  rw [String.lt_iff_toList_lt]
  have hs : ((⟨[c₁, ':']⟩ : String) ++ s).toList = c₁ :: ':' :: s.toList := by
    show ((⟨[c₁, ':']⟩ : String) ++ s).data = c₁ :: ':' :: s.data
    rw [String.data_append]
    rfl
  have ht : ((⟨[c₂, ':']⟩ : String) ++ t).toList = c₂ :: ':' :: t.toList := by
    show ((⟨[c₂, ':']⟩ : String) ++ t).data = c₂ :: ':' :: t.data
    rw [String.data_append]
    rfl
  rw [hs, ht]
  exact List.Lex.rel h

/-- C3 (amended): under lexicographic comparison of the sort-priority
strings, every prioritized-keyword entry sorts before every function-derived
entry, every function-derived entry sorts before every ordinary keyword
entry, and every prioritized-keyword entry sorts before every ordinary
keyword entry. -/
theorem C3_amended_sort_priority_order (p o f : String)
    (hp : p ∈ PRIORITIZED_SQL_WORDS) (ho : o ∉ PRIORITIZED_SQL_WORDS) :
    keywordSortText p < functionSortText f ∧
    functionSortText f < keywordSortText o ∧
    keywordSortText p < keywordSortText o := by
  have hpc : PRIORITIZED_SQL_WORDS.contains p = true := List.elem_iff.2 hp
  have hoc : PRIORITIZED_SQL_WORDS.contains o = false := by
    rcases hb : PRIORITIZED_SQL_WORDS.contains o with _ | _
    · rfl
    · exact absurd (List.elem_iff.1 hb) ho
  unfold keywordSortText functionSortText
  rw [hpc, hoc]
  simp only [if_true, if_false]
  exact ⟨sortPrefix_lt '2' '3' p f (by decide),
         sortPrefix_lt '3' '4' f o (by decide),
         sortPrefix_lt '2' '4' p o (by decide)⟩

/-- C3 witness: the amended ordering at `SELECT` (prioritized), `FROM`
(ordinary keyword) and `ABS` (function). -/
theorem C3_witness :
    keywordSortText "SELECT" < functionSortText "ABS" ∧
    functionSortText "ABS" < keywordSortText "FROM" ∧
    keywordSortText "SELECT" < keywordSortText "FROM" :=
  C3_amended_sort_priority_order "SELECT" "FROM" "ABS" (by decide) (by decide)

/-! ### Claims about the completion merge -/

theorem mem_keysOf_objSet_of_mem {α : Type} (m : List (String × α))
    (k k' : String) (v : α) (h : k ∈ keysOf m) :
    k ∈ keysOf (objSet m k' v) := by
  rw [keysOf_objSet]
  by_cases hc : (keysOf m).contains k' = true
  · rw [if_pos hc]; exact h
  · rw [if_neg hc]; exact List.mem_append_left _ h

theorem self_mem_keysOf_objSet {α : Type} (m : List (String × α))
    (k : String) (v : α) : k ∈ keysOf (objSet m k v) := by
  rw [keysOf_objSet]
  by_cases hc : (keysOf m).contains k = true
  · rw [if_pos hc]; exact (contains_keys_iff m k).1 hc
  · rw [if_neg hc]; exact List.mem_append_right _ (by simp)

theorem lookup_pair_mem {α : Type} (k : String) (v : α) :
    ∀ (m : List (String × α)), List.lookup k m = some v → (k, v) ∈ m
  | [], h => absurd h (by simp)
  | kv :: rest, h => by
    by_cases hk : k = kv.1
    · have h2 : some kv.2 = some v := by
        rw [List.lookup_cons] at h
        simpa [beq_iff_eq.2 hk] using h
      have h3 : kv.2 = v := Option.some_inj.1 h2
      exact List.mem_cons.2 (Or.inl (by rw [hk, ← h3]))
    · rw [List.lookup_cons, beq_eq_false_iff_ne.2 hk] at h
      exact List.mem_cons_of_mem _ (lookup_pair_mem k v rest h)

theorem processFunctionRow_mono (parse : String → Option JsVal)
    (item : TDynamicFunctionRow) (m : List (String × TFunctionCompletionMeta))
    (L : String) (meta : TFunctionCompletionMeta)
    (h : List.lookup L m = some meta) :
    ∃ meta', List.lookup L (processFunctionRow parse m item) = some meta' ∧
      metaSub meta meta' := by
  unfold processFunctionRow
  cases hl : rowLabel item with
  | none => exact ⟨meta, h, metaSub_refl meta⟩
  | some label =>
    simp only [hl]
    by_cases hEq : label = L
    · subst hEq
      rw [h]
      refine ⟨rowNewMeta parse item ((some meta).getD emptyFunctionMeta) label,
        lookup_objSet_self _ _ _, ?_⟩
      show metaSub meta (rowNewMeta parse item meta label)
      unfold rowNewMeta metaSub
      refine ⟨fun x hx => mem_setAdd_of_mem _ _ _ hx, ?_, ?_,
        fun x hx => mem_foldl_setAdd _ _ _ hx, ?_⟩
      · by_cases hrt : rowReturnType item ≠ ""
        · simp only [if_pos hrt]
          exact fun x hx => mem_setAdd_of_mem _ _ _ hx
        · simp only [if_neg hrt]
          exact fun x hx => hx
      · by_cases hsp : rowSignatureParams item ≠ []
        · simp only [if_pos hsp]
          exact fun x hx => mem_setAdd_of_mem _ _ _ hx
        · simp only [if_neg hsp]
          exact fun x hx => hx
      · intro hdesc
        simp only [hdesc, false_and, if_false]
    · exact ⟨meta, by
        rw [lookup_objSet_ne _ _ _ _ (fun he => hEq he.symm)]
        exact h,
        metaSub_refl meta⟩

theorem foldl_processFunctionRow_mono (parse : String → Option JsVal)
    (items : List TDynamicFunctionRow) :
    ∀ (m : List (String × TFunctionCompletionMeta)) (L : String)
      (meta : TFunctionCompletionMeta), List.lookup L m = some meta →
      ∃ meta', List.lookup L (items.foldl (processFunctionRow parse) m) = some meta' ∧
        metaSub meta meta' := by
  induction items with
  | nil => intro m L meta h; exact ⟨meta, h, metaSub_refl meta⟩
  | cons item rest ih =>
    intro m L meta h
    obtain ⟨meta1, h1, hsub1⟩ := processFunctionRow_mono parse item m L meta h
    obtain ⟨meta2, h2, hsub2⟩ := ih (processFunctionRow parse m item) L meta1 h1
    exact ⟨meta2, h2, metaSub_trans hsub1 hsub2⟩

theorem processFunctionRow_lookup_label (parse : String → Option JsVal)
    (item : TDynamicFunctionRow) (m : List (String × TFunctionCompletionMeta))
    (L : String) (hl : rowLabel item = some L) :
    List.lookup L (processFunctionRow parse m item) =
      some (rowNewMeta parse item ((m.lookup L).getD emptyFunctionMeta) L) := by
  unfold processFunctionRow
  simp only [hl]
  exact lookup_objSet_self _ _ _

theorem rowNewMeta_signature_mem (parse : String → Option JsVal)
    (item : TDynamicFunctionRow) (cur : TFunctionCompletionMeta) (L : String)
    (hsp : rowSignatureParams item ≠ []) :
    rowSignature L item ∈ (rowNewMeta parse item cur L).signatures := by
  unfold rowNewMeta
  simp only [if_pos hsp]
  exact mem_setAdd_self _ _

theorem processFunctionRow_keys_nodup (parse : String → Option JsVal)
    (item : TDynamicFunctionRow) (m : List (String × TFunctionCompletionMeta))
    (h : (keysOf m).Nodup) :
    (keysOf (processFunctionRow parse m item)).Nodup := by
  unfold processFunctionRow
  cases hl : rowLabel item with
  | none => simp only [hl]; exact h
  | some label => simp only [hl]; exact keysOf_objSet_nodup _ _ _ h

theorem foldl_processFunctionRow_keys_nodup (parse : String → Option JsVal)
    (items : List TDynamicFunctionRow) :
    ∀ (m : List (String × TFunctionCompletionMeta)), (keysOf m).Nodup →
      (keysOf (items.foldl (processFunctionRow parse) m)).Nodup := by
  induction items with
  | nil => intro m h; exact h
  | cons item rest ih =>
    intro m h
    exact ih _ (processFunctionRow_keys_nodup parse item m h)

theorem applyFunctionMeta_keys_nodup (completions : Completions) (L : String)
    (meta : TFunctionCompletionMeta) (h : (keysOf completions).Nodup) :
    (keysOf (applyFunctionMeta completions L meta)).Nodup := by
  unfold applyFunctionMeta
  cases completions.lookup L with
  | none => exact keysOf_objSet_nodup _ _ _ h
  | some existing => exact keysOf_objSet_nodup _ _ _ h

theorem applyFunctionMeta_keys_mem (completions : Completions) (L k : String)
    (meta : TFunctionCompletionMeta) (h : k ∈ keysOf completions) :
    k ∈ keysOf (applyFunctionMeta completions L meta) := by
  unfold applyFunctionMeta
  cases completions.lookup L with
  | none => exact mem_keysOf_objSet_of_mem _ _ _ _ h
  | some existing => exact mem_keysOf_objSet_of_mem _ _ _ _ h

theorem applyFunctionMeta_keys_self (completions : Completions) (L : String)
    (meta : TFunctionCompletionMeta) :
    L ∈ keysOf (applyFunctionMeta completions L meta) := by
  unfold applyFunctionMeta
  cases completions.lookup L with
  | none => exact self_mem_keysOf_objSet _ _ _
  | some existing => exact self_mem_keysOf_objSet _ _ _

theorem foldl_applyFunctionMeta_keys_nodup
    (kvs : List (String × TFunctionCompletionMeta)) :
    ∀ (comps : Completions), (keysOf comps).Nodup →
      (keysOf (kvs.foldl (fun c kv => applyFunctionMeta c kv.1 kv.2) comps)).Nodup := by
  induction kvs with
  | nil => intro comps h; exact h
  | cons kv rest ih =>
    intro comps h
    exact ih _ (applyFunctionMeta_keys_nodup comps kv.1 kv.2 h)

theorem foldl_applyFunctionMeta_keys_mem
    (kvs : List (String × TFunctionCompletionMeta)) :
    ∀ (comps : Completions) (k : String),
      (k ∈ keysOf comps ∨ ∃ mv, (k, mv) ∈ kvs) →
      k ∈ keysOf (kvs.foldl (fun c kv => applyFunctionMeta c kv.1 kv.2) comps) := by
  induction kvs with
  | nil =>
    intro comps k h
    rcases h with h | ⟨mv, hmv⟩
    · exact h
    · cases hmv
  | cons kv rest ih =>
    intro comps k h
    simp only [List.foldl_cons]
    apply ih
    rcases h with h | ⟨mv, hmv⟩
    · exact Or.inl (applyFunctionMeta_keys_mem comps kv.1 k kv.2 h)
    · rcases List.mem_cons.1 hmv with he | hm
      · refine Or.inl ?_
        have : k = kv.1 := congrArg Prod.fst he
        rw [this]
        exact applyFunctionMeta_keys_self comps kv.1 kv.2
      · exact Or.inr ⟨mv, hm⟩

/-- C8: in the grouped function metadata, rows sharing a normalized label
merge into a single entry — the final index has no duplicate label keys and
each contributing row's label is present exactly once; the rendered signature
of every row that has signature fragments is contained in the accumulated
signature set for its label; and processing further rows never drops a
previously recorded category, return type, signature, tag, or the
first-seen description. -/
theorem C8_function_merge_accumulates (parse : String → Option JsVal)
    (items : List TDynamicFunctionRow) (completions : Completions)
    (hnodup : (keysOf completions).Nodup) :
    (keysOf (addFunctionCompletions parse items completions)).Nodup ∧
    (∀ r ∈ items, ∀ L, rowLabel r = some L →
      (∃ meta, List.lookup L (items.foldl (processFunctionRow parse) []) = some meta ∧
        (rowSignatureParams r ≠ [] → rowSignature L r ∈ meta.signatures)) ∧
      L ∈ keysOf (addFunctionCompletions parse items completions)) ∧
    (∀ (items2 : List TDynamicFunctionRow) (L : String)
        (meta : TFunctionCompletionMeta),
      List.lookup L (items.foldl (processFunctionRow parse) []) = some meta →
      ∃ meta', List.lookup L ((items ++ items2).foldl (processFunctionRow parse) [])
          = some meta' ∧ metaSub meta meta') := by
  have hmain : ∀ r ∈ items, ∀ L, rowLabel r = some L →
      ∃ meta, List.lookup L (items.foldl (processFunctionRow parse) []) = some meta ∧
        (rowSignatureParams r ≠ [] → rowSignature L r ∈ meta.signatures) := by
    intro r hr L hl
    obtain ⟨l1, l2, hsplit⟩ := List.append_of_mem hr
    rw [hsplit, List.foldl_append, List.foldl_cons]
    set m1 := l1.foldl (processFunctionRow parse) [] with hm1
    have hstep := processFunctionRow_lookup_label parse r m1 L hl
    obtain ⟨meta, hmeta, hsub⟩ := foldl_processFunctionRow_mono parse l2
      (processFunctionRow parse m1 r) L _ hstep
    refine ⟨meta, hmeta, fun hsp => ?_⟩
    exact hsub.2.2.1 _ (rowNewMeta_signature_mem parse r _ L hsp)
  refine ⟨?_, ?_, ?_⟩
  · unfold addFunctionCompletions
    exact foldl_applyFunctionMeta_keys_nodup _ completions hnodup
  · intro r hr L hl
    obtain ⟨meta, hmeta, hsig⟩ := hmain r hr L hl
    refine ⟨⟨meta, hmeta, hsig⟩, ?_⟩
    unfold addFunctionCompletions
    exact foldl_applyFunctionMeta_keys_mem _ completions L
      (Or.inr ⟨meta, lookup_pair_mem L meta _ hmeta⟩)
  · intro items2 L meta hmeta
    rw [List.foldl_append]
    exact foldl_processFunctionRow_mono parse items2 _ L meta hmeta

/-- C9: when a merged function label collides with an existing entry, only
that entry's documentation changes — the function documentation block is
appended after the existing (trimmed) documentation; label, detail,
filterText and sort-priority string are untouched, the key set of the index
is unchanged (no new entry), and every other entry is untouched. -/
theorem C9_collision_only_appends_documentation (completions : Completions)
    (L : String) (meta : TFunctionCompletionMeta) (existing : IStaticCompletion)
    (hex : List.lookup L completions = some existing) :
    List.lookup L (applyFunctionMeta completions L meta) = some
      { existing with
        documentation :=
          if jsTrim existing.documentation ≠ "" then
            jsTrim existing.documentation ++ "\n\n" ++ docValueOf L meta
          else docValueOf L meta } ∧
    keysOf (applyFunctionMeta completions L meta) = keysOf completions ∧
    (∀ L', L' ≠ L →
      List.lookup L' (applyFunctionMeta completions L meta)
        = List.lookup L' completions) := by
  have hcont : (keysOf completions).contains L = true :=
    (contains_keys_iff completions L).2 (lookup_some_mem_keys L existing completions hex)
  unfold applyFunctionMeta
  rw [hex]
  refine ⟨lookup_objSet_self _ _ _, ?_, ?_⟩
  · rw [keysOf_objSet, if_pos hcont]
  · intro L' hne
    exact lookup_objSet_ne _ _ _ _ hne

/-- C8 witness: two overloaded rows for the same label evaluated concretely;
the merged metadata holds both rendered signatures under the single key. -/
theorem C8_witness :
    (keysOf (addFunctionCompletions (fun _ => none)
      [{ label := "abs", name := "", category := "scalar", functionType := "",
         type := "", description := "", returnType := "INT", return_type := "",
         parameters := .arr [.str "x"], parameterTypes := .arr [.str "INT"],
         parameter_types := .undef, tags := .undef },
       { label := "abs", name := "", category := "scalar", functionType := "",
         type := "", description := "", returnType := "REAL", return_type := "",
         parameters := .arr [.str "x"], parameterTypes := .arr [.str "REAL"],
         parameter_types := .undef, tags := .undef }] [])).Nodup ∧
    (∃ meta,
      List.lookup "ABS"
        ([{ label := "abs", name := "", category := "scalar", functionType := "",
            type := "", description := "", returnType := "INT", return_type := "",
            parameters := .arr [.str "x"], parameterTypes := .arr [.str "INT"],
            parameter_types := .undef, tags := .undef },
          { label := "abs", name := "", category := "scalar", functionType := "",
            type := "", description := "", returnType := "REAL", return_type := "",
            parameters := .arr [.str "x"], parameterTypes := .arr [.str "REAL"],
            parameter_types := .undef, tags := .undef }].foldl
          (processFunctionRow (fun _ => none)) []) = some meta ∧
      (rowSignatureParams
          { label := "abs", name := "", category := "scalar", functionType := "",
            type := "", description := "", returnType := "INT", return_type := "",
            parameters := .arr [.str "x"], parameterTypes := .arr [.str "INT"],
            parameter_types := .undef, tags := .undef } ≠ [] →
        rowSignature "ABS"
          { label := "abs", name := "", category := "scalar", functionType := "",
            type := "", description := "", returnType := "INT", return_type := "",
            parameters := .arr [.str "x"], parameterTypes := .arr [.str "INT"],
            parameter_types := .undef, tags := .undef } ∈ meta.signatures)) := by
  constructor
  · exact (C8_function_merge_accumulates (fun _ => none) _ [] (by simp [keysOf])).1
  · exact ((C8_function_merge_accumulates (fun _ => none) _ [] (by simp [keysOf])).2.1
      _ (by simp) "ABS" (by decide)).1

/-- C9 witness: a keyword entry for `ABS` collides with merged function
metadata; only the documentation field changes. -/
theorem C9_witness :
    List.lookup "ABS" (applyFunctionMeta
        [("ABS", ⟨"ABS", "ABS", "ABS", "4:ABS", "kw doc"⟩)]
        "ABS" ⟨["SCALAR"], ["INT"], ["ABS(x)"], [], ""⟩) = some
      { (⟨"ABS", "ABS", "ABS", "4:ABS", "kw doc"⟩ : IStaticCompletion) with
        documentation :=
          if jsTrim "kw doc" ≠ "" then
            jsTrim "kw doc" ++ "\n\n" ++
              docValueOf "ABS" ⟨["SCALAR"], ["INT"], ["ABS(x)"], [], ""⟩
          else docValueOf "ABS" ⟨["SCALAR"], ["INT"], ["ABS(x)"], [], ""⟩ } ∧
    keysOf (applyFunctionMeta
        [("ABS", ⟨"ABS", "ABS", "ABS", "4:ABS", "kw doc"⟩)]
        "ABS" ⟨["SCALAR"], ["INT"], ["ABS(x)"], [], ""⟩) =
      keysOf [("ABS", (⟨"ABS", "ABS", "ABS", "4:ABS", "kw doc"⟩ : IStaticCompletion))] ∧
    (∀ L', L' ≠ "ABS" →
      List.lookup L' (applyFunctionMeta
          [("ABS", ⟨"ABS", "ABS", "ABS", "4:ABS", "kw doc"⟩)]
          "ABS" ⟨["SCALAR"], ["INT"], ["ABS(x)"], [], ""⟩) =
        List.lookup L' [("ABS", ⟨"ABS", "ABS", "ABS", "4:ABS", "kw doc"⟩)]) :=
  C9_collision_only_appends_documentation
    [("ABS", ⟨"ABS", "ABS", "ABS", "4:ABS", "kw doc"⟩)]
    "ABS" ⟨["SCALAR"], ["INT"], ["ABS(x)"], [], ""⟩
    ⟨"ABS", "ABS", "ABS", "4:ABS", "kw doc"⟩ rfl

end DuckDBDriver
